import Mathlib

/-!
Verification of the poker table engine in `server.py` (repository
`YK8349/pokerweb`).  The definitions below are a shallow embedding of the
Python source: pure functions become Lean functions, the mutable
`PokerGame` object becomes an explicit `GameState` record that every
operation threads, Python's unbounded `int` becomes `Int`, and Python list
indexing / mutation becomes `List.get?` / `List.set`.  Each definition
names the source function it embeds.
-/

namespace Pokerweb

/-- A playing card (`Card` in `server.py`): a suit (encoded 0..3 for
♠,♥,♦,♣) and the numeric value 2..14 derived from the rank via
`RANK_VALUES`.  The rank string is determined by `value`, so it is not
carried separately. -/
structure Card where
  suit : Nat
  value : Nat
deriving DecidableEq, Repr

/-- Stable insertion of `x` into a descending-sorted list: `x` is placed
before the first element it is not strictly below.  Equal-key elements
already in the list stay in front only if they are strictly larger, which
reproduces the stability of Python's `sorted(..., reverse=True)` (the list
being inserted into holds elements that came later in the original list). -/
def insertDesc {α : Type} (lt : α → α → Bool) (x : α) : List α → List α
  | [] => [x]
  | y :: ys => if lt x y then y :: insertDesc lt x ys else x :: y :: ys

/-- Stable descending sort, modelling Python's `sorted(..., reverse=True)`. -/
def sortDesc {α : Type} (lt : α → α → Bool) : List α → List α
  | [] => []
  | x :: xs => insertDesc lt x (sortDesc lt xs)

/-- Lexicographic strict order on pairs of naturals, as Python compares the
`(bool, int)` and `(int, int)` sort keys used in `get_hand_rank`
(`False < True` becomes `0 < 1`). -/
def keyLt (a b : Nat × Nat) : Bool := a.1 < b.1 || (a.1 == b.1 && a.2 < b.2)

/-- `sorted(l, key=k, reverse=True)` for a key producing a pair. -/
def sortDescBy {α : Type} (k : α → Nat × Nat) (l : List α) : List α :=
  sortDesc (fun x y => keyLt (k x) (k y)) l

/-- Python's lexicographic `<` on lists of integers (card values). -/
def pyListLt : List Nat → List Nat → Bool
  | [], [] => false
  | [], _ :: _ => true
  | _ :: _, [] => false
  | a :: t, b :: u => a < b || (a == b && pyListLt t u)

/-- `itertools.combinations(l, n)`: all `n`-element sublists of `l`, in the
order `itertools` emits them (lexicographic by position). -/
def combinations {α : Type} : Nat → List α → List (List α)
  | 0, _ => [[]]
  | _ + 1, [] => []
  | n + 1, x :: xs =>
      ((combinations n xs).map (fun t => x :: t)) ++ combinations (n + 1) xs

/-- `PokerGame.get_hand_rank`: scores one five-card hand as
`(category, tiebreak cards)`.  The hand is first sorted descending by
value; flush/straight detection uses the distinct suits/values (Python's
`set(...)`, embedded as `List.dedup`); the grouped categories re-sort the
hand by the key `(value != groupvalue, value)` descending, exactly as the
source writes it.  The `counts` list pairs each distinct value with its
multiplicity, sorted descending by `(count, value)`; since that key is
injective on distinct values, the iteration order of Python's `set` is
irrelevant and `dedup` order is faithful. -/
def get_hand_rank (hand0 : List Card) : Nat × List Card :=
  let hand := sortDescBy (fun c => (0, c.value)) hand0
  let values := hand.map (fun c => c.value)
  let suits := hand.map (fun c => c.suit)
  let isFlush := suits.dedup.length == 1
  let maxV := (values.max?).getD 0
  let minV := (values.min?).getD 0
  let isStraight :=
    (values.dedup.length == 5 && maxV - minV == 4) || values == [14, 5, 4, 3, 2]
  if isStraight && isFlush then
    if values == [14, 13, 12, 11, 10] then (9, hand) else (8, hand)
  else
    let counts := sortDescBy (fun vc : Nat × Nat => (vc.2, vc.1))
      (values.dedup.map (fun v => (v, values.count v)))
    let c0 := counts.getD 0 (0, 0)
    let c1 := counts.getD 1 (0, 0)
    if c0.2 == 4 then
      (7, sortDescBy (fun c => (if c.value != c0.1 then 1 else 0, c.value)) hand)
    else if c0.2 == 3 && c1.2 == 2 then (6, hand)
    else if isFlush then (5, hand)
    else if isStraight then
      if values == [14, 5, 4, 3, 2] then
        (4, hand.filter (fun c => c.value != 14) ++ hand.filter (fun c => c.value == 14))
      else (4, hand)
    else if c0.2 == 3 then
      (3, sortDescBy (fun c => (if c.value != c0.1 then 1 else 0, c.value)) hand)
    else if c0.2 == 2 && c1.2 == 2 then
      (2, sortDescBy (fun c => (if c.value != c0.1 && c.value != c1.1 then 1 else 0, c.value)) hand)
    else if c0.2 == 2 then
      (1, sortDescBy (fun c => (if c.value != c0.1 then 1 else 0, c.value)) hand)
    else (0, hand)

/-- The card values of a tiebreak list sorted descending, as
`evaluate_hand` computes `sorted([c.value for c in rank[1]], reverse=True)`. -/
def descValues (cards : List Card) : List Nat :=
  sortDescBy (fun v => (0, v)) (cards.map (fun c => c.value))

/-- `PokerGame.evaluate_hand`: folds over all 5-card subsets of the 7-card
hand, keeping a subset exactly when its category is strictly higher, or the
category ties and its value list sorted descending is lexicographically
strictly greater.  The accumulator starts at `(-1, [])` as in the source. -/
def evaluate_hand (hand : List Card) : Int × List Card :=
  (combinations 5 hand).foldl
    (fun best h =>
      let rank := get_hand_rank h
      if (rank.1 : Int) > best.1 ∨
          ((rank.1 : Int) = best.1 ∧ pyListLt (descValues best.2) (descValues rank.2) = true) then
        ((rank.1 : Int), rank.2)
      else best)
    (-1, [])

/-- Per-seat mutable state (`Player` in `server.py`).  `name` is omitted:
no game-logic decision reads it (it only feeds log strings), and object
identity in the source corresponds to list position here.  Chips, bets and
amounts are `Int`, matching Python's unbounded signed integers. -/
structure Player where
  hand : List Card := []
  chips : Int := 1000
  bet : Int := 0
  hasActed : Bool := false
  isFolded : Bool := false
  isAllIn : Bool := false
  isCpu : Bool := false
  isGemini : Bool := false
  showHand : Bool := true
deriving DecidableEq, Repr

/-- The mutable table (`PokerGame` in `server.py`).  The deck is the
remaining card list; `Deck.deal` pops from the end.  Log messages and the
thread lock are not modelled: the lock only serialises the mutations
embedded here, and logs never feed back into game decisions. -/
structure GameState where
  players : List Player
  deck : List Card := []
  community : List Card := []
  pot : Int := 0
  currentBet : Int := 0
  currentPlayerIndex : Nat := 0
  gameStage : String := "pre-flop"
  gameInProgress : Bool := false
  humanActionNeeded : Bool := false
  smallBlindIndex : Nat := 0
  bigBlindIndex : Nat := 0
  smallBlindAmount : Int := 10
  bigBlindAmount : Int := 20
deriving DecidableEq, Repr

/-- Map with the element's position, used to embed `for p in self.players`
loops that treat the acting player (one fixed position) specially. -/
def mapWithIdx {α : Type} (f : Nat → α → α) : Nat → List α → List α
  | _, [] => []
  | n, x :: xs => f n x :: mapWithIdx f (n + 1) xs

/-- One blind post (`start_round` lines 162-169): the poster bets
`min(amount, chips)`, pays it from the stack, and is marked all-in exactly
when the stack reaches zero.  Out-of-range indices leave the list
unchanged (unreachable in the source, which would raise). -/
def blindPost (ps : List Player) (i : Nat) (amount : Int) : List Player :=
  match ps.get? i with
  | none => ps
  | some p =>
    let b := min amount p.chips
    ps.set i { p with bet := b, chips := p.chips - b,
                      isAllIn := if p.chips - b = 0 then true else p.isAllIn }

/-- `start_round` lines 155-173: rotate the blind indices, post both blinds
sequentially, add both posted bets to the pot, set `current_bet` to the big
blind amount and the actor to the seat after the big blind.  The per-player
reset (lines 147-153: fresh hand, `bet = 0`, flags cleared) and the deck
shuffle happen just before this in the source; theorems state those resets
as hypotheses where they matter. -/
def postBlinds (g : GameState) : GameState :=
  let n := g.players.length
  let sbI := (g.smallBlindIndex + 1) % n
  let bbI := (sbI + 1) % n
  let ps1 := blindPost g.players sbI g.smallBlindAmount
  let ps2 := blindPost ps1 bbI g.bigBlindAmount
  let sbBet := ((ps2.get? sbI).map (fun p => p.bet)).getD 0
  let bbBet := ((ps2.get? bbI).map (fun p => p.bet)).getD 0
  { g with players := ps2, smallBlindIndex := sbI, bigBlindIndex := bbI,
           pot := g.pot + sbBet + bbBet,
           currentBet := g.bigBlindAmount,
           currentPlayerIndex := (bbI + 1) % n }

/-- `PokerGame.handle_action`: applies a `fold` / `check` / `call` /
`raise` action of the player at `current_player_index`; any other string —
including the `'all-in'` the Gemini prompt advertises — falls through the
`if/elif` chain and only marks the player as having acted.  After every
action the actor is marked `has_acted` and the index advances by one
modulo the seat count.  An out-of-range index returns the state unchanged
(the source would raise instead; the index is always in range there). -/
def handle_action (g : GameState) (action : String) (amount : Int) : GameState :=
  match g.players.get? g.currentPlayerIndex with
  | none => g
  | some player =>
    let i := g.currentPlayerIndex
    let n := g.players.length
    if action = "fold" then
      { g with players := g.players.set i { player with isFolded := true, hasActed := true },
               currentPlayerIndex := (i + 1) % n }
    else if action = "check" then
      { g with players := g.players.set i { player with hasActed := true },
               currentPlayerIndex := (i + 1) % n }
    else if action = "call" then
      let amountToCall := g.currentBet - player.bet
      if player.chips ≤ amountToCall then
        { g with players := g.players.set i
                   { player with bet := player.bet + player.chips, chips := 0,
                                 isAllIn := true, hasActed := true },
                 currentPlayerIndex := (i + 1) % n }
      else
        { g with players := g.players.set i
                   { player with chips := player.chips - amountToCall,
                                 bet := player.bet + amountToCall, hasActed := true },
                 currentPlayerIndex := (i + 1) % n }
    else if action = "raise" then
      let minRaise := if g.currentBet > 0 then g.currentBet * 2 else g.bigBlindAmount
      let a2 := min (max minRaise amount) (player.chips + player.bet)
      let p' := { player with chips := player.chips - (a2 - player.bet), bet := a2,
                              isAllIn := if player.chips + player.bet ≤ a2 then true
                                         else player.isAllIn,
                              hasActed := true }
      { g with players := mapWithIdx
                 (fun j q => if j ≠ i ∧ q.isFolded = false ∧ q.isAllIn = false then
                               { q with hasActed := false }
                             else q) 0 (g.players.set i p'),
               currentBet := a2,
               currentPlayerIndex := (i + 1) % n }
    else
      { g with players := g.players.set i { player with hasActed := true },
               currentPlayerIndex := (i + 1) % n }

/-- `end_betting_round` lines 346-348 and `end_round` lines 397-398: every
seat's bet is added to the pot and zeroed. -/
def sweepBets (g : GameState) : GameState :=
  { g with pot := g.pot + (g.players.map (fun p => p.bet)).sum,
           players := g.players.map (fun p => { p with bet := 0 }) }

/-- The `next_stage` dict of `end_betting_round`.  The source raises
`KeyError` outside the four betting stages; those stages are the only ones
the function is reached in, so other strings are returned unchanged. -/
def nextStage (s : String) : String :=
  if s = "pre-flop" then "flop"
  else if s = "flop" then "turn"
  else if s = "turn" then "river"
  else if s = "river" then "showdown"
  else s

/-- `Deck.deal` feeding `community_cards`: pop the last card of the deck
and append it.  An empty deck is left unchanged (the source's `deal`
returns `None` there; it never happens within a hand's ≤ `7·players+5`
draws). -/
def dealOne (g : GameState) : GameState :=
  match g.deck.getLast? with
  | none => g
  | some c => { g with deck := g.deck.dropLast, community := g.community ++ [c] }

/-- The showdown key `(rank[0], [c.value for c in rank[1]])` that
`end_round` sorts and compares players by. -/
def playerKey (g : GameState) (p : Player) : Int × List Nat :=
  let r := evaluate_hand (p.hand ++ g.community)
  (r.1, r.2.map (fun c => c.value))

/-- Python's `<` on the showdown keys (tuple of int and value list). -/
def showdownKeyLt (a b : Int × List Nat) : Bool :=
  a.1 < b.1 || (a.1 == b.1 && pyListLt a.2 b.2)

/-- `PokerGame.end_round`: sweep outstanding bets, reveal every hand, and
settle.  One remaining non-folded seat takes the whole pot; otherwise the
non-folded seats are sorted descending by showdown key, every seat tying
the best key wins `pot // len(winners)` (Python floor division, `Int.fdiv`)
and the remainder stays in `pot`, which the next `start_round` resets.
Winners are identified by their key equalling the best key, which matches
the source's filter because the key is a function of the seat's cards. -/
def end_round (g : GameState) : GameState :=
  let g1 := sweepBets g
  let active := g1.players.filter (fun p => p.isFolded = false)
  let shown := g1.players.map (fun p => { p with showHand := true })
  if active.length = 1 then
    { g1 with players := shown.map (fun p =>
                if p.isFolded = false then { p with chips := p.chips + g1.pot } else p),
              gameInProgress := false }
  else
    let rankedKeys := sortDesc showdownKeyLt (active.map (fun p => playerKey g1 p))
    let bestKey := rankedKeys.headD (-1, [])
    let winners := rankedKeys.filter (fun k => k = bestKey)
    let winnings := g1.pot.fdiv winners.length
    { g1 with players := shown.map (fun p =>
                if p.isFolded = false ∧ playerKey g1 p = bestKey then
                  { p with chips := p.chips + winnings }
                else p),
              gameInProgress := false }

/-- `PokerGame.end_betting_round`: sweep bets into the pot, advance the
stage, deal 3 community cards entering the flop and 1 entering the turn or
river; entering showdown instead settles the hand via `end_round`.
(`sweepBets` leaves `game_stage` alone, so branching on
`nextStage g.gameStage` is the source's branching on the updated
`self.game_stage`.) -/
def end_betting_round (g : GameState) : GameState :=
  if nextStage g.gameStage = "flop" then
    dealOne (dealOne (dealOne { sweepBets g with gameStage := nextStage g.gameStage }))
  else if nextStage g.gameStage = "turn" then
    dealOne { sweepBets g with gameStage := nextStage g.gameStage }
  else if nextStage g.gameStage = "river" then
    dealOne { sweepBets g with gameStage := nextStage g.gameStage }
  else if nextStage g.gameStage = "showdown" then
    end_round { sweepBets g with gameStage := nextStage g.gameStage }
  else { sweepBets g with gameStage := nextStage g.gameStage }

/-- The non-folded, non-all-in seats (`active_not_allin` in
`process_turn`). -/
def liveActive (g : GameState) : List Player :=
  g.players.filter (fun p => p.isFolded = false ∧ p.isAllIn = false)

/-- The round-close test of `process_turn` lines 203-207: every live seat
has acted and the set of live bets (Python set cardinality = `dedup`
length) has at most one element. -/
def roundCloses (g : GameState) : Bool :=
  let live := liveActive g
  ((live.filter (fun p => p.hasActed)).length == live.length)
    && ((live.map (fun p => p.bet)).dedup.length ≤ 1)

/-- What one pass of the `process_turn` loop body decides before anyone
acts. -/
inductive TurnDecision where
  | endRound
  | closeRound
  | actor (i : Nat)
  | skipSeat (next : Nat)
deriving DecidableEq, Repr

/-- The decision structure of `process_turn` lines 197-222: with at most
one non-folded seat the hand ends; otherwise the round-close test runs
before the actor lookup; a folded or all-in seat at the index is skipped. -/
def process_turn_check (g : GameState) : TurnDecision :=
  if (g.players.filter (fun p => p.isFolded = false)).length ≤ 1 then .endRound
  else if roundCloses g then .closeRound
  else
    match g.players.get? g.currentPlayerIndex with
    | none => .skipSeat ((g.currentPlayerIndex + 1) % g.players.length)
    | some q =>
      if q.isFolded ∨ q.isAllIn then
        .skipSeat ((g.currentPlayerIndex + 1) % g.players.length)
      else .actor g.currentPlayerIndex

/-- `PokerGame.handle_human_action`: a no-op unless `human_action_needed`
is set; when set, the flag is cleared first and the action is then applied
(the source's second in-lock check collapses to the single test here). -/
def handle_human_action (g : GameState) (action : String) (amount : Int) : GameState :=
  if g.humanActionNeeded = false then g
  else handle_action { g with humanActionNeeded := false } action amount

/-- The `/player_action` route: reject with an HTTP 400 error when no human
action is owed, otherwise delegate to `handle_human_action`. -/
def player_action_route (g : GameState) (action : String) (amount : Int) :
    Except String GameState :=
  if g.humanActionNeeded = false then .error "Not your turn or game not ready"
  else .ok (handle_human_action g action amount)

/-- `PokerGame.get_gemini_poker_action`, with the remote call shallowly
embedded as its outcome: `.error` covers any exception of the `try` block
(transport failure, unparseable text, malformed JSON) and lands in the
`except` handler, which applies `fold`; a parsed reply uses
`action_data.get("action", "fold")` and `action_data.get("amount", 0)`,
so missing fields default to folding / amount 0. -/
def get_gemini_poker_action (g : GameState)
    (response : Except String (Option String × Option Int)) : GameState :=
  match response with
  | .error _ => handle_action g "fold" 0
  | .ok (a, amt) => handle_action g (a.getD "fold") (amt.getD 0)

/-- `process_betting_round` lines 184-188, the state reset entering a
non-pre-flop stage: `current_bet` returns to 0, every bet is zeroed, and
every live seat's `has_acted` is cleared.  (The actor-search loop that
precedes it is control flow only.) -/
def stageReset (g : GameState) : GameState :=
  { g with currentBet := 0,
           players := g.players.map (fun p =>
             if p.isFolded = false ∧ p.isAllIn = false then
               { p with bet := 0, hasActed := false }
             else { p with bet := 0 }) }

/-- The conserved quantity of the spec: all stacks plus the pot plus all
outstanding bets. -/
def totalMoney (g : GameState) : Int :=
  (g.players.map (fun p => p.chips)).sum + g.pot + (g.players.map (fun p => p.bet)).sum

/-- `cb` is the maximum `bet` among the non-folded seats of `ps` (the
maximum of no seats read as 0): every non-folded bet is bounded by `cb`,
and `cb` is 0 or attained by a non-folded seat. -/
def betMaxInvOn (ps : List Player) (cb : Int) : Prop :=
  (∀ p ∈ ps, p.isFolded = false → p.bet ≤ cb) ∧
  (cb = 0 ∨ ∃ p ∈ ps, p.isFolded = false ∧ p.bet = cb)

instance (ps : List Player) (cb : Int) : Decidable (betMaxInvOn ps cb) := by
  unfold betMaxInvOn; infer_instance

/-- The spec invariant: `currentBet` equals the maximum `bet` among
non-folded seats. -/
def betMaxInv (g : GameState) : Prop := betMaxInvOn g.players g.currentBet

instance (g : GameState) : Decidable (betMaxInv g) := by
  unfold betMaxInv; infer_instance

/-- The non-folded seats at settlement time (`active_players` in
`end_round`, computed after the sweep). -/
def showdownActive (g : GameState) : List Player :=
  (sweepBets g).players.filter (fun p => p.isFolded = false)
/-- The sorted showdown keys (`winner_data` of `end_round`, keys only). -/
def showdownKeys (g : GameState) : List (Int × List Nat) :=
  sortDesc showdownKeyLt ((showdownActive g).map (fun p => playerKey (sweepBets g) p))
/-- `best_rank_tuple` of `end_round`: the key at the head of the sorted
list. -/
def showdownBestKey (g : GameState) : Int × List Nat := (showdownKeys g).headD (-1, [])
/-- `len(winners)` of `end_round`: how many seats tie the best key. -/
def tiedWinnersCount (g : GameState) : Nat :=
  ((showdownKeys g).filter (fun k => k = showdownBestKey g)).length
/-- The full house 2♠ 2♥ 2♦ 5♠ 5♥ of claim C2. -/
def demoFullHouse : List Card := [⟨0, 2⟩, ⟨1, 2⟩, ⟨2, 2⟩, ⟨0, 5⟩, ⟨1, 5⟩]
/-- Seven mixed-suit cards A,2,3,4,5,6,K: they contain both the wheel
A-2-3-4-5 and the strictly better 6-high straight 2-3-4-5-6. -/
def demoWheelSeven : List Card :=
  [⟨0, 14⟩, ⟨1, 2⟩, ⟨2, 3⟩, ⟨3, 4⟩, ⟨0, 5⟩, ⟨1, 6⟩, ⟨2, 13⟩]
/-- The mixed-suit 6-high straight subset of `demoWheelSeven`. -/
def demoSixHigh : List Card := [⟨1, 2⟩, ⟨2, 3⟩, ⟨3, 4⟩, ⟨0, 5⟩, ⟨1, 6⟩]
/-- A two-seat table mid-hand: seat 0 to act with 100 chips, facing a
current bet of 20. -/
def demoAllIn : GameState :=
  { players := [{ chips := 100 }, { chips := 200 }], currentBet := 20 }
/-- The raise-clamp demo of the spec: seat 0 to act with 50 chips, no bet
yet, facing a current bet of 20. -/
def demoRaiseClamp : GameState :=
  { players := [{ chips := 50 }, { chips := 200, bet := 20 }], currentBet := 20 }
/-- A closed pre-flop table about to close its betting round: both seats
have acted with equal bets of 20, three cards remain to be dealt. -/
def demoPreflopClosed : GameState :=
  { players := [{ chips := 980, bet := 20, hasActed := true },
                { chips := 980, bet := 20, hasActed := true }],
    deck := [⟨0, 7⟩, ⟨1, 8⟩, ⟨2, 9⟩], currentBet := 20 }
/-- Two seats that both play the royal-flush board, pot 101: the canonical
uneven split. -/
def demoSplitPot : GameState :=
  { players := [{ hand := [⟨1, 2⟩, ⟨2, 3⟩], chips := 1000 },
                { hand := [⟨1, 4⟩, ⟨2, 5⟩], chips := 1000 }],
    community := [⟨0, 14⟩, ⟨0, 13⟩, ⟨0, 12⟩, ⟨0, 11⟩, ⟨0, 10⟩],
    pot := 101, gameStage := "showdown" }

/-- A fresh two-seat table, both stacks 1000, about to post blinds 10/20:
`smallBlindIndex = 1` so that `start_round`'s rotation makes seat 0 the
small blind and seat 1 the big blind. -/
def demoFresh : GameState :=
  { players := [{ chips := 1000 }, { chips := 1000 }], smallBlindIndex := 1 }

/-- A fresh two-seat table whose big blind seat holds only 15 chips. -/
def demoShortBB : GameState :=
  { players := [{ chips := 1000 }, { chips := 15 }], smallBlindIndex := 1 }

/-- Claim C1.  The conservation claim fails at blind posting: on a fresh
two-seat table with stacks 1000+1000 and blinds 10/20, `start_round`'s
blind block leaves the posted blinds in the posters' `bet` fields *and*
adds them to the pot, so `sum(chips) + pot + sum(bets)` jumps from 2000 to
2030.  (`end_betting_round` later sweeps those same bets into the pot a
second time, so the 30 extra chips are paid out at settlement.)  The
in-hand actions themselves conserve the sum — the slip is only the
`self.pot += sb_player.bet + bb_player.bet` at line 171. -/
theorem C1_blind_posting_breaks_conservation :
    totalMoney demoFresh = 2000 ∧ totalMoney (postBlinds demoFresh) = 2030 := by
  decide


/-- Claim C2.  `get_hand_rank` does not put the category-defining cards
first: the full house 2,2,2,5,5 is classified as category 6 but its
tiebreak list is simply the hand sorted descending, `[5,5,2,2,2]` — the
pair of fives precedes the trips of twos, contradicting the claimed order
`[2,2,2,5,5]`.  (For quads/trips/pairs the re-sort key
`(value != group, value)` with `reverse=True` even puts the kickers first,
since Python sorts `True` above `False` under `reverse`.) -/
theorem C2_full_house_tiebreak_pair_first :
    (get_hand_rank demoFullHouse).1 = 6 ∧
    ((get_hand_rank demoFullHouse).2.map (fun c => c.value)) = [5, 5, 2, 2, 2] ∧
    ((get_hand_rank demoFullHouse).2.map (fun c => c.value)) ≠ [2, 2, 2, 5, 5] := by
  decide



set_option maxRecDepth 4000 in
/-- Claim C3.  Inside `get_hand_rank` the wheel's tiebreak list does put
the ace last (`[5,4,3,2,A]`), but `evaluate_hand` compares subsets by the
tiebreak values *re-sorted descending*, which moves the ace (value 14)
back to the front.  On A,2,3,4,5,6,K the wheel therefore beats the 6-high
straight during best-subset selection: `evaluate_hand` returns the wheel
(value list `[5,4,3,2,14]`) although the same seven cards contain the
category-4 hand `[6,5,4,3,2]`.  The wheel is compared as 14-high, not
5-high, in `evaluate_hand`'s selection. -/
theorem C3_wheel_compares_14_high_in_evaluate :
    (evaluate_hand demoWheelSeven).1 = 4 ∧
    ((evaluate_hand demoWheelSeven).2.map (fun c => c.value)) = [5, 4, 3, 2, 14] ∧
    (get_hand_rank demoSixHigh).1 = 4 ∧
    ((get_hand_rank demoSixHigh).2.map (fun c => c.value)) = [6, 5, 4, 3, 2] ∧
    descValues (evaluate_hand demoWheelSeven).2 = [14, 5, 4, 3, 2] := by
  decide


/-- Claim C4.  `handle_action` has no `'all-in'` branch: the string falls
through the `if/elif` chain, so the action only sets `has_acted` and
advances the turn.  Seat 0 submits `all-in` with 100 chips and a bet of 0,
and afterwards still has 100 chips, bet 0, and `is_all_in` false — nothing
is wagered, contradicting the claim (and the source's own Gemini prompt,
which documents `all-in` as "Bet all your remaining chips"). -/
theorem C4_all_in_action_is_a_no_op :
    (handle_action demoAllIn "all-in" 0).players.map
        (fun p => (p.chips, p.bet, p.isAllIn, p.hasActed)) =
      [(100, 0, false, true), (200, 0, false, false)] ∧
    (handle_action demoAllIn "all-in" 0).currentPlayerIndex = 1 ∧
    (handle_action demoAllIn "all-in" 0).pot = demoAllIn.pot ∧
    (handle_action demoAllIn "all-in" 0).currentBet = demoAllIn.currentBet := by
  decide

/-- Claim C6, counterexample.  Immediately after blinds are posted on a
table whose big blind seat holds only 15 chips, `current_bet` is set to
the full big blind 20 while the maximum bet among the (non-folded) seats
is the short all-in 15: the claimed invariant fails in a reachable state. -/
theorem C6_counterexample_short_big_blind :
    (postBlinds demoShortBB).currentBet = 20 ∧
    ((postBlinds demoShortBB).players.map (fun p => (p.bet, p.isFolded))) =
      [(10, false), (15, false)] ∧
    ¬ betMaxInv (postBlinds demoShortBB) := by
  decide

theorem mapWithIdx_get? {α : Type} (f : Nat → α → α) (n j : Nat) (l : List α) :
    (mapWithIdx f n l).get? j = (l.get? j).map (f (n + j)) := by
  induction l generalizing n j with
  | nil => simp [mapWithIdx]
  | cons x xs ih =>
    cases j with
    | zero => simp [mapWithIdx]
    | succ j =>
      have harith : n + 1 + j = n + (j + 1) := by omega
      show (mapWithIdx f (n + 1) xs).get? j = ((x :: xs).get? (j + 1)).map (f (n + (j + 1)))
      rw [ih (n + 1) j, harith]
      rfl

theorem handle_action_keeps_humanActionNeeded (g : GameState) (a : String) (amt : Int) :
    (handle_action g a amt).humanActionNeeded = g.humanActionNeeded := by
  unfold handle_action
  cases g.players.get? g.currentPlayerIndex with
  | none => rfl
  | some p =>
    simp only
    split
    · rfl
    · split
      · rfl
      · split
        · split <;> rfl
        · split
          · rfl
          · rfl

set_option maxRecDepth 8000 in
/-- Claim C8.  A human submission is applied iff `human_action_needed` is
true at submission time: when false, the route answers with the HTTP 400
error and `handle_human_action` leaves the table untouched; when true, the
route succeeds and the applied result is exactly `handle_action` run on
the state with the flag already cleared (and the flag stays cleared, since
`handle_action` never touches it). -/
theorem C8_human_action_gate (g : GameState) (a : String) (amt : Int) :
    (g.humanActionNeeded = false →
       player_action_route g a amt = .error "Not your turn or game not ready" ∧
       handle_human_action g a amt = g) ∧
    (g.humanActionNeeded = true →
       player_action_route g a amt =
         .ok (handle_action { g with humanActionNeeded := false } a amt) ∧
       (handle_human_action g a amt).humanActionNeeded = false) := by
  constructor
  · intro h
    simp [player_action_route, handle_human_action, h]
  · intro h
    simp [player_action_route, handle_human_action, h,
          handle_action_keeps_humanActionNeeded]

/-- Claim C8, witness: on a table not waiting for the human, a submission
is rejected with the error signal and the state is unchanged. -/
theorem C8_witness :
    player_action_route demoAllIn "check" 0 = .error "Not your turn or game not ready" ∧
    handle_human_action demoAllIn "check" 0 = demoAllIn :=
  (C8_human_action_gate demoAllIn "check" 0).1 rfl

/-- Claim C9.  When the remote (Gemini) call fails — transport error or
unparseable reply, i.e. the `.error` outcome of the `try` block — the
acting seat is folded (fail-safe default): only that seat's `is_folded`
and `has_acted` change, every other seat is untouched, and neither the
stage, the pot, the current bet, the community cards nor the
hand-in-progress flag changes, so the failure never terminates the hand. -/
theorem C9_gemini_failure_folds (g : GameState) (e : String) (p : Player)
    (hp : g.players.get? g.currentPlayerIndex = some p) :
    (get_gemini_poker_action g (.error e)).players.get? g.currentPlayerIndex =
      some { p with isFolded := true, hasActed := true } ∧
    (∀ j, j ≠ g.currentPlayerIndex →
      (get_gemini_poker_action g (.error e)).players.get? j = g.players.get? j) ∧
    (get_gemini_poker_action g (.error e)).gameInProgress = g.gameInProgress ∧
    (get_gemini_poker_action g (.error e)).pot = g.pot ∧
    (get_gemini_poker_action g (.error e)).currentBet = g.currentBet ∧
    (get_gemini_poker_action g (.error e)).gameStage = g.gameStage ∧
    (get_gemini_poker_action g (.error e)).community = g.community := by
  have hlt : g.currentPlayerIndex < g.players.length := by
    rw [List.get?_eq_getElem?] at hp
    exact (List.getElem?_eq_some.mp hp).1
  unfold get_gemini_poker_action handle_action
  rw [hp]
  simp only [List.get?_eq_getElem?]
  refine ⟨?_, fun j hj => ?_, rfl, rfl, rfl, rfl, rfl⟩
  · simpa using List.getElem?_set_eq_of_lt _ hlt
  · simpa using List.getElem?_set_ne (Ne.symm hj)

/-- Claim C9, witness: a failed remote call on the two-seat demo table
folds seat 0 and leaves seat 1 and the table unchanged. -/
theorem C9_witness :
    (get_gemini_poker_action demoAllIn (.error "boom")).players.get? 0 =
      some { chips := 100, isFolded := true, hasActed := true } ∧
    (get_gemini_poker_action demoAllIn (.error "boom")).players.get? 1 =
      some { chips := 200 } ∧
    (get_gemini_poker_action demoAllIn (.error "boom")).gameInProgress =
      demoAllIn.gameInProgress := by
  have h := C9_gemini_failure_folds demoAllIn "boom" { chips := 100 } rfl
  exact ⟨h.1, by rw [h.2.1 1 (by decide)]; rfl, h.2.2.1⟩

/-- Claim C5.  A raise request is clamped to
`min (max minRaise requested) (chips + bet)` with
`minRaise = currentBet*2` when a bet stands and the big blind amount
otherwise; the actor ends with exactly that bet, pays the difference from
the stack, the table's `current_bet` becomes the clamped amount, and the
action is reclassified all-in precisely when the clamp hits the actor's
whole stack. -/
theorem C5_raise_clamped_and_reclassified (g : GameState) (req : Int) (p : Player)
    (hp : g.players.get? g.currentPlayerIndex = some p) :
    (handle_action g "raise" req).currentBet =
      min (max (if g.currentBet > 0 then g.currentBet * 2 else g.bigBlindAmount) req)
        (p.chips + p.bet) ∧
    (handle_action g "raise" req).players.get? g.currentPlayerIndex =
      (some { p with
        chips := p.chips -
          (min (max (if g.currentBet > 0 then g.currentBet * 2 else g.bigBlindAmount) req)
            (p.chips + p.bet) - p.bet),
        bet := min (max (if g.currentBet > 0 then g.currentBet * 2 else g.bigBlindAmount) req)
          (p.chips + p.bet),
        isAllIn := if min (max (if g.currentBet > 0 then g.currentBet * 2 else g.bigBlindAmount) req)
            (p.chips + p.bet) = p.chips + p.bet then true else p.isAllIn,
        hasActed := true }) := by
  have hlt : g.currentPlayerIndex < g.players.length := by
    rw [List.get?_eq_getElem?] at hp
    exact (List.getElem?_eq_some.mp hp).1
  have hminle : min (max (if g.currentBet > 0 then g.currentBet * 2 else g.bigBlindAmount) req)
      (p.chips + p.bet) ≤ p.chips + p.bet := min_le_right _ _
  have hiff : (p.chips + p.bet ≤ min (max (if g.currentBet > 0 then g.currentBet * 2 else g.bigBlindAmount) req)
      (p.chips + p.bet)) ↔
      (min (max (if g.currentBet > 0 then g.currentBet * 2 else g.bigBlindAmount) req)
        (p.chips + p.bet) = p.chips + p.bet) :=
    ⟨fun h => le_antisymm hminle h, fun h => le_of_eq h.symm⟩
  unfold handle_action
  rw [hp]
  simp only [String.reduceEq, if_false, if_true, reduceIte]
  refine ⟨by trivial, ?_⟩
  rw [mapWithIdx_get?]
  simp only [List.get?_eq_getElem?, List.getElem?_set_eq_of_lt _ hlt, Nat.zero_add,
    ne_eq, not_true_eq_false, false_and, if_false]
  by_cases h : min (max (if g.currentBet > 0 then g.currentBet * 2 else g.bigBlindAmount) req)
      (p.chips + p.bet) = p.chips + p.bet
  · rw [if_pos (hiff.mpr h), if_pos h]; rfl
  · rw [if_neg (fun hc => h (hiff.mp hc)), if_neg h]; rfl


/-- Claim C5, witness: requesting a raise to 1000 with a 50-chip stack is
clamped to 50, recorded as all-in, and empties the stack. -/
theorem C5_witness :
    (handle_action demoRaiseClamp "raise" 1000).currentBet = 50 ∧
    (handle_action demoRaiseClamp "raise" 1000).players.get? 0 =
      some { chips := 0, bet := 50, isAllIn := true, hasActed := true } := by
  have h := C5_raise_clamped_and_reclassified demoRaiseClamp 1000 { chips := 50 } rfl
  norm_num at h
  exact h

theorem filter_length_eq_iff {α : Type} (p : α → Bool) (l : List α) :
    (l.filter p).length = l.length ↔ ∀ a ∈ l, p a = true := by
  constructor
  · intro h
    rw [← List.filter_eq_self (p := p)]
    exact (List.filter_sublist l).eq_of_length h
  · intro h
    rw [List.filter_eq_self.mpr h]

theorem dedup_length_le_one_iff {α : Type} [DecidableEq α] (l : List α) :
    l.dedup.length ≤ 1 ↔ ∀ a ∈ l, ∀ b ∈ l, a = b := by
  constructor
  · intro h a ha b hb
    have ha' := List.mem_dedup.mpr ha
    have hb' := List.mem_dedup.mpr hb
    rcases hd : l.dedup with _ | ⟨x, _ | ⟨y, t⟩⟩
    · rw [hd] at ha'
      exact absurd ha' (List.not_mem_nil a)
    · rw [hd] at ha' hb'
      simp only [List.mem_singleton] at ha' hb'
      rw [ha', hb']
    · rw [hd] at h
      simp at h
  · intro h
    rcases hd : l.dedup with _ | ⟨x, _ | ⟨y, t⟩⟩
    · simp
    · simp
    · exfalso
      have hx : x ∈ l := List.mem_dedup.mp (hd ▸ List.mem_cons_self x _)
      have hy : y ∈ l := List.mem_dedup.mp
        (hd ▸ List.mem_cons_of_mem x (List.mem_cons_self y t))
      have hnd := l.nodup_dedup
      rw [hd] at hnd
      exact (List.nodup_cons.mp hnd).1 (h x hx y hy ▸ List.mem_cons_self y t)

theorem roundCloses_iff (g : GameState) :
    roundCloses g = true ↔
      (∀ p ∈ liveActive g, p.hasActed = true) ∧
      (∀ p ∈ liveActive g, ∀ q ∈ liveActive g, p.bet = q.bet) := by
  unfold roundCloses
  rw [Bool.and_eq_true, beq_iff_eq, decide_eq_true_eq, filter_length_eq_iff,
    dedup_length_le_one_iff]
  constructor
  · rintro ⟨h1, h2⟩
    refine ⟨h1, fun p hp q hq => ?_⟩
    exact h2 p.bet (List.mem_map_of_mem _ hp) q.bet (List.mem_map_of_mem _ hq)
  · rintro ⟨h1, h2⟩
    refine ⟨h1, fun a ha b hb => ?_⟩
    obtain ⟨p, hp, rfl⟩ := List.mem_map.mp ha
    obtain ⟨q, hq, rfl⟩ := List.mem_map.mp hb
    exact h2 p hp q hq

theorem dealOne_frame (g : GameState) :
    (dealOne g).players = g.players ∧ (dealOne g).pot = g.pot ∧
    (dealOne g).currentBet = g.currentBet ∧ (dealOne g).gameStage = g.gameStage := by
  unfold dealOne
  cases g.deck.getLast? <;> exact ⟨rfl, rfl, rfl, rfl⟩

theorem dealOne_lengths (g : GameState) (h : g.deck ≠ []) :
    (dealOne g).community.length = g.community.length + 1 ∧
    (dealOne g).deck.length + 1 = g.deck.length := by
  have hs : g.deck.getLast?.isSome := List.getLast?_isSome.mpr h
  obtain ⟨c, hc⟩ := Option.isSome_iff_exists.mp hs
  have hd : dealOne g = { g with deck := g.deck.dropLast, community := g.community ++ [c] } := by
    unfold dealOne
    rw [hc]
  have hpos : 0 < g.deck.length := List.length_pos.mpr h
  rw [hd]
  refine ⟨by simp, ?_⟩
  simp only [List.length_dropLast]
  omega

theorem end_round_frame (g : GameState) :
    (end_round g).gameStage = g.gameStage ∧ (end_round g).community = g.community ∧
    (end_round g).deck = g.deck ∧
    (end_round g).pot = g.pot + (g.players.map (fun p => p.bet)).sum ∧
    ∀ p ∈ (end_round g).players, p.bet = 0 := by
  unfold end_round sweepBets
  dsimp only
  split
  all_goals refine ⟨rfl, rfl, rfl, rfl, ?_⟩
  all_goals intro p hp
  all_goals obtain ⟨q, hq, rfl⟩ := List.mem_map.mp hp
  all_goals obtain ⟨r, hr, rfl⟩ := List.mem_map.mp hq
  all_goals obtain ⟨s, hs, rfl⟩ := List.mem_map.mp hr
  all_goals split
  all_goals rfl


/-- Claim C7.  Before any actor lookup (`process_turn`), the betting round
closes exactly when every non-folded, non-all-in seat has acted and those
seats share at most one distinct bet value (no such seats also closes) —
stated against the independent pairwise formulation, given at least two
non-folded seats so the hand itself does not end first.  On close,
`end_betting_round` adds every bet to the pot and zeroes it, advances the
stage along pre-flop→flop→turn→river→showdown, and deals exactly 3
community cards entering the flop, 1 entering the turn, 1 entering the
river, and none entering showdown. -/
theorem C7_round_close_and_stage_advance (g : GameState) :
    (2 ≤ (g.players.filter (fun p => p.isFolded = false)).length →
      (process_turn_check g = TurnDecision.closeRound ↔
        (∀ p ∈ liveActive g, p.hasActed = true) ∧
        (∀ p ∈ liveActive g, ∀ q ∈ liveActive g, p.bet = q.bet))) ∧
    (g.gameStage = "pre-flop" → 3 ≤ g.deck.length →
      (end_betting_round g).gameStage = "flop" ∧
      (end_betting_round g).community.length = g.community.length + 3 ∧
      (end_betting_round g).deck.length + 3 = g.deck.length ∧
      (end_betting_round g).pot = g.pot + (g.players.map (fun p => p.bet)).sum ∧
      ∀ p ∈ (end_betting_round g).players, p.bet = 0) ∧
    (g.gameStage = "flop" → 1 ≤ g.deck.length →
      (end_betting_round g).gameStage = "turn" ∧
      (end_betting_round g).community.length = g.community.length + 1 ∧
      (end_betting_round g).deck.length + 1 = g.deck.length ∧
      (end_betting_round g).pot = g.pot + (g.players.map (fun p => p.bet)).sum ∧
      ∀ p ∈ (end_betting_round g).players, p.bet = 0) ∧
    (g.gameStage = "turn" → 1 ≤ g.deck.length →
      (end_betting_round g).gameStage = "river" ∧
      (end_betting_round g).community.length = g.community.length + 1 ∧
      (end_betting_round g).deck.length + 1 = g.deck.length ∧
      (end_betting_round g).pot = g.pot + (g.players.map (fun p => p.bet)).sum ∧
      ∀ p ∈ (end_betting_round g).players, p.bet = 0) ∧
    (g.gameStage = "river" →
      (end_betting_round g).gameStage = "showdown" ∧
      (end_betting_round g).community = g.community ∧
      (end_betting_round g).deck = g.deck ∧
      (end_betting_round g).pot = g.pot + (g.players.map (fun p => p.bet)).sum ∧
      ∀ p ∈ (end_betting_round g).players, p.bet = 0) := by
  refine ⟨?_, ?_, ?_, ?_, ?_⟩
  · intro hact
    unfold process_turn_check
    rw [if_neg (by omega)]
    by_cases hrc : roundCloses g
    · rw [if_pos hrc]
      exact ⟨fun _ => (roundCloses_iff g).mp hrc, fun _ => rfl⟩
    · rw [if_neg hrc]
      constructor
      · intro hEq
        exfalso
        cases hq : g.players.get? g.currentPlayerIndex with
        | none => rw [hq] at hEq; exact absurd hEq (by simp)
        | some q =>
          rw [hq] at hEq
          dsimp only at hEq
          by_cases hsk : q.isFolded = true ∨ q.isAllIn = true
          · rw [if_pos hsk] at hEq
            exact absurd hEq (by simp)
          · rw [if_neg hsk] at hEq
            exact absurd hEq (by simp)
      · intro hRight
        exact absurd ((roundCloses_iff g).mpr hRight) hrc
  · intro hstage hdeck
    have he : end_betting_round g =
        dealOne (dealOne (dealOne { sweepBets g with gameStage := "flop" })) := by
      unfold end_betting_round
      rw [hstage]
      simp [nextStage]
    have h0 : ({ sweepBets g with gameStage := "flop" } : GameState).deck = g.deck := rfl
    have hne0 : ({ sweepBets g with gameStage := "flop" } : GameState).deck ≠ [] := by
      rw [h0]; exact List.ne_nil_of_length_pos (by omega)
    have l0 := dealOne_lengths _ hne0
    have f0 := dealOne_frame ({ sweepBets g with gameStage := "flop" })
    have hne1 : (dealOne { sweepBets g with gameStage := "flop" }).deck ≠ [] := by
      apply List.ne_nil_of_length_pos
      have := l0.2
      rw [h0] at this
      omega
    have l1 := dealOne_lengths _ hne1
    have f1 := dealOne_frame (dealOne { sweepBets g with gameStage := "flop" })
    have hne2 : (dealOne (dealOne { sweepBets g with gameStage := "flop" })).deck ≠ [] := by
      apply List.ne_nil_of_length_pos
      have h2 := l0.2
      have h3 := l1.2
      rw [h0] at h2
      omega
    have l2 := dealOne_lengths _ hne2
    have f2 := dealOne_frame (dealOne (dealOne { sweepBets g with gameStage := "flop" }))
    rw [he]
    refine ⟨?_, ?_, ?_, ?_, ?_⟩
    · rw [f2.2.2.2, f1.2.2.2, f0.2.2.2]
    · have hcomm : ({ sweepBets g with gameStage := "flop" } : GameState).community
          = g.community := rfl
      rw [l2.1, l1.1, l0.1, hcomm]
    · have h2 := l0.2
      have h3 := l1.2
      have h4 := l2.2
      rw [h0] at h2
      omega
    · rw [f2.2.1, f1.2.1, f0.2.1]
      rfl
    · rw [f2.1, f1.1, f0.1]
      intro p hp
      simp only [sweepBets, List.mem_map] at hp
      obtain ⟨q, _, rfl⟩ := hp
      rfl
  · intro hstage hdeck
    have he : end_betting_round g = dealOne { sweepBets g with gameStage := "turn" } := by
      unfold end_betting_round
      rw [hstage]
      simp [nextStage]
    have h0 : ({ sweepBets g with gameStage := "turn" } : GameState).deck = g.deck := rfl
    have hne0 : ({ sweepBets g with gameStage := "turn" } : GameState).deck ≠ [] := by
      rw [h0]; exact List.ne_nil_of_length_pos (by omega)
    have l0 := dealOne_lengths _ hne0
    have f0 := dealOne_frame ({ sweepBets g with gameStage := "turn" })
    rw [he]
    refine ⟨f0.2.2.2, l0.1, ?_, by rw [f0.2.1]; rfl, ?_⟩
    · have := l0.2
      rw [h0] at this
      omega
    · rw [f0.1]
      intro p hp
      simp only [sweepBets, List.mem_map] at hp
      obtain ⟨q, _, rfl⟩ := hp
      rfl
  · intro hstage hdeck
    have he : end_betting_round g = dealOne { sweepBets g with gameStage := "river" } := by
      unfold end_betting_round
      rw [hstage]
      simp [nextStage]
    have h0 : ({ sweepBets g with gameStage := "river" } : GameState).deck = g.deck := rfl
    have hne0 : ({ sweepBets g with gameStage := "river" } : GameState).deck ≠ [] := by
      rw [h0]; exact List.ne_nil_of_length_pos (by omega)
    have l0 := dealOne_lengths _ hne0
    have f0 := dealOne_frame ({ sweepBets g with gameStage := "river" })
    rw [he]
    refine ⟨f0.2.2.2, l0.1, ?_, by rw [f0.2.1]; rfl, ?_⟩
    · have := l0.2
      rw [h0] at this
      omega
    · rw [f0.1]
      intro p hp
      simp only [sweepBets, List.mem_map] at hp
      obtain ⟨q, _, rfl⟩ := hp
      rfl
  · intro hstage
    have he : end_betting_round g =
        end_round { sweepBets g with gameStage := "showdown" } := by
      unfold end_betting_round
      rw [hstage]
      simp [nextStage]
    have hf := end_round_frame ({ sweepBets g with gameStage := "showdown" })
    have hzero : ((({ sweepBets g with gameStage := "showdown" } : GameState).players.map
        (fun p => p.bet)).sum) = 0 := by
      apply List.sum_eq_zero
      intro x hx
      simp only [sweepBets, List.map_map, List.mem_map] at hx
      obtain ⟨q, _, rfl⟩ := hx
      rfl
    rw [he]
    refine ⟨hf.1, hf.2.1, hf.2.2.1, ?_, hf.2.2.2.2⟩
    rw [hf.2.2.2.1, hzero]
    simp [sweepBets]

/-- Claim C7, witness: on the closed pre-flop demo table the check
reports round close, and closing deals the flop: stage `flop`, 3 community
cards, and the pot collects both bets of 20. -/
theorem C7_witness :
    process_turn_check demoPreflopClosed = TurnDecision.closeRound ∧
    (end_betting_round demoPreflopClosed).gameStage = "flop" ∧
    (end_betting_round demoPreflopClosed).community.length = 3 ∧
    (end_betting_round demoPreflopClosed).pot = 40 := by
  obtain ⟨h1, h2, _, _, _⟩ := C7_round_close_and_stage_advance demoPreflopClosed
  have hc := (h1 (by decide)).mpr ⟨by decide, by decide⟩
  have he := h2 rfl (by decide)
  refine ⟨hc, he.1, ?_, ?_⟩
  · rw [he.2.1]
    decide
  · rw [he.2.2.2.1]
    decide

theorem succ_mod_ne (n i : Nat) (h2 : 2 ≤ n) (hi : i < n) : (i + 1) % n ≠ i := by
  intro h
  rcases Nat.lt_or_ge (i + 1) n with hl | hg
  · rw [Nat.mod_eq_of_lt hl] at h
    omega
  · have hin : i + 1 = n := by omega
    rw [hin, Nat.mod_self] at h
    omega

theorem mem_mapWithIdx {α : Type} (f : Nat → α → α) (n : Nat) (l : List α) (b : α)
    (hb : b ∈ mapWithIdx f n l) : ∃ j x, l.get? j = some x ∧ b = f (n + j) x := by
  induction l generalizing n with
  | nil => cases hb
  | cons x xs ih =>
    rcases List.mem_cons.mp hb with h | h
    · exact ⟨0, x, rfl, by simpa using h⟩
    · obtain ⟨j, y, hget, rfl⟩ := ih (n + 1) h
      have harith : n + 1 + j = n + (j + 1) := by omega
      exact ⟨j + 1, y, hget, by rw [harith]⟩

theorem index_lt_of_get?_eq_some {α : Type} {l : List α} {i : Nat} {a : α}
    (h : l.get? i = some a) : i < l.length := by
  rw [List.get?_eq_getElem?] at h
  exact (List.getElem?_eq_some.mp h).1

theorem mem_set_self {α : Type} {l : List α} {i : Nat} (a : α) (h : i < l.length) :
    a ∈ l.set i a := by
  apply List.get?_mem (n := i)
  rw [List.get?_eq_getElem?]
  exact List.getElem?_set_eq_of_lt _ h

theorem get?_set_ne' {α : Type} {l : List α} {i j : Nat} (h : i ≠ j) (a : α) :
    (l.set i a).get? j = l.get? j := by
  rw [List.get?_eq_getElem?, List.getElem?_set_ne h, ← List.get?_eq_getElem?]

theorem betMaxInvOn_set_same (ps : List Player) (i : Nat) (p p' : Player) (cb : Int)
    (hget : ps.get? i = some p) (hbet : p'.bet = p.bet) (hfold : p'.isFolded = p.isFolded)
    (h : betMaxInvOn ps cb) : betMaxInvOn (ps.set i p') cb := by
  obtain ⟨hub, hex⟩ := h
  constructor
  · intro q hq hqf
    rcases List.mem_or_eq_of_mem_set hq with hmem | rfl
    · exact hub q hmem hqf
    · rw [hbet]
      exact hub p (List.get?_mem hget) (hfold ▸ hqf)
  · rcases hex with h0 | ⟨q, hqmem, hqf, hqb⟩
    · exact Or.inl h0
    · right
      obtain ⟨k, hk⟩ := List.mem_iff_get?.mp hqmem
      by_cases hki : k = i
      · subst hki
        rw [hget] at hk
        injection hk with hk
        subst hk
        exact ⟨p', mem_set_self p' (index_lt_of_get?_eq_some hget),
          hfold.trans hqf, hbet.trans hqb⟩
      · refine ⟨q, ?_, hqf, hqb⟩
        apply List.get?_mem (n := k)
        rw [get?_set_ne' (fun he => hki he.symm)]
        exact hk

theorem betMaxInvOn_set_to_cb (ps : List Player) (i : Nat) (p' : Player) (cb : Int)
    (hlen : i < ps.length) (hbet : p'.bet = cb) (hfold : p'.isFolded = false)
    (hub : ∀ q ∈ ps, q.isFolded = false → q.bet ≤ cb) :
    betMaxInvOn (ps.set i p') cb := by
  constructor
  · intro q hq hqf
    rcases List.mem_or_eq_of_mem_set hq with hmem | rfl
    · exact hub q hmem hqf
    · exact le_of_eq hbet
  · exact Or.inr ⟨p', mem_set_self p' hlen, hfold, hbet⟩

theorem betMaxInvOn_set_fold (ps : List Player) (i : Nat) (p' : Player) (cb : Int)
    (hfold' : p'.isFolded = true)
    (hub : ∀ q ∈ ps, q.isFolded = false → q.bet ≤ cb)
    (hwit : cb = 0 ∨ ∃ j q, j ≠ i ∧ ps.get? j = some q ∧ q.isFolded = false ∧ q.bet = cb) :
    betMaxInvOn (ps.set i p') cb := by
  constructor
  · intro q hq hqf
    rcases List.mem_or_eq_of_mem_set hq with hmem | rfl
    · exact hub q hmem hqf
    · rw [hfold'] at hqf
      cases hqf
  · rcases hwit with h0 | ⟨j, q, hji, hgj, hqf, hqb⟩
    · exact Or.inl h0
    · right
      refine ⟨q, ?_, hqf, hqb⟩
      apply List.get?_mem (n := j)
      rw [get?_set_ne' (fun he => hji he.symm)]
      exact hgj

theorem blindPost_eq (ps : List Player) (i : Nat) (amt : Int) (p : Player)
    (hget : ps.get? i = some p) :
    blindPost ps i amt = ps.set i
      { p with bet := min amt p.chips, chips := p.chips - min amt p.chips,
               isAllIn := if p.chips - min amt p.chips = 0 then true else p.isAllIn } := by
  unfold blindPost
  rw [hget]

theorem postBlinds_betMaxInv (g : GameState)
    (h2 : 2 ≤ g.players.length)
    (hprops : ∀ p ∈ g.players, p.bet = 0 ∧ p.isFolded = false ∧ g.bigBlindAmount ≤ p.chips)
    (hsb0 : 0 ≤ g.smallBlindAmount)
    (hsbbb : g.smallBlindAmount ≤ g.bigBlindAmount) :
    betMaxInv (postBlinds g) := by
  have hn0 : 0 < g.players.length := by omega
  have hsbI : (g.smallBlindIndex + 1) % g.players.length < g.players.length :=
    Nat.mod_lt _ hn0
  have hbbI : ((g.smallBlindIndex + 1) % g.players.length + 1) % g.players.length
      < g.players.length := Nat.mod_lt _ hn0
  have hne : ((g.smallBlindIndex + 1) % g.players.length + 1) % g.players.length
      ≠ (g.smallBlindIndex + 1) % g.players.length := succ_mod_ne _ _ h2 hsbI
  obtain ⟨sb, hsbget⟩ : ∃ sb, g.players.get? ((g.smallBlindIndex + 1) % g.players.length)
      = some sb := by
    rw [List.get?_eq_getElem?]
    exact ⟨_, List.getElem?_eq_getElem hsbI⟩
  obtain ⟨bb, hbbget⟩ : ∃ bb, g.players.get?
      (((g.smallBlindIndex + 1) % g.players.length + 1) % g.players.length) = some bb := by
    rw [List.get?_eq_getElem?]
    exact ⟨_, List.getElem?_eq_getElem hbbI⟩
  show betMaxInvOn
    (blindPost (blindPost g.players ((g.smallBlindIndex + 1) % g.players.length)
        g.smallBlindAmount)
      (((g.smallBlindIndex + 1) % g.players.length + 1) % g.players.length)
      g.bigBlindAmount)
    g.bigBlindAmount
  rw [blindPost_eq _ _ _ _ hsbget]
  have hps1get : ((g.players.set ((g.smallBlindIndex + 1) % g.players.length)
      { sb with bet := min g.smallBlindAmount sb.chips,
                chips := sb.chips - min g.smallBlindAmount sb.chips,
                isAllIn := if sb.chips - min g.smallBlindAmount sb.chips = 0 then true
                           else sb.isAllIn }).get?
      (((g.smallBlindIndex + 1) % g.players.length + 1) % g.players.length)) = some bb := by
    rw [get?_set_ne' (fun he => hne he.symm)]
    exact hbbget
  rw [blindPost_eq _ _ _ _ hps1get]
  constructor
  · intro q hq hqf
    rcases List.mem_or_eq_of_mem_set hq with hq1 | rfl
    · rcases List.mem_or_eq_of_mem_set hq1 with hq2 | rfl
      · have hb0 := (hprops q hq2).1
        have := hsb0.trans hsbbb
        omega
      · exact (min_le_left _ _).trans hsbbb
    · exact min_le_left _ _
  · right
    refine ⟨_, mem_set_self _ ?_, ?_, ?_⟩
    · rw [List.length_set]
      exact hbbI
    · exact (hprops bb (List.get?_mem hbbget)).2.1
    · exact min_eq_left (hprops bb (List.get?_mem hbbget)).2.2

theorem stageReset_betMaxInv (g : GameState) : betMaxInv (stageReset g) := by
  constructor
  · intro q hq _
    obtain ⟨r, _, rfl⟩ := List.mem_map.mp hq
    split <;> exact le_refl 0
  · exact Or.inl rfl

theorem exists_attained_mapWithIdx_set (ps : List Player) (i : Nat) (p' : Player)
    (f : Nat → Player → Player) (hlen : i < ps.length)
    (hfix : f i p' = p') (hf : p'.isFolded = false) :
    ∃ q ∈ mapWithIdx f 0 (ps.set i p'), q.isFolded = false ∧ q.bet = p'.bet := by
  refine ⟨f (0 + i) p', ?_, ?_, ?_⟩
  · apply List.get?_mem (n := i)
    rw [mapWithIdx_get?, List.get?_eq_getElem?, List.getElem?_set_eq_of_lt _ hlen]
    rfl
  · rw [Nat.zero_add, hfix]
    exact hf
  · rw [Nat.zero_add, hfix]

theorem handle_action_betMaxInv (g : GameState) (a : String) (amt : Int) (p : Player)
    (hinv : betMaxInv g)
    (hp : g.players.get? g.currentPlayerIndex = some p)
    (hpf : p.isFolded = false)
    (hbets : ∀ q ∈ g.players, 0 ≤ q.bet)
    (hbb : 0 ≤ g.bigBlindAmount)
    (hcover : g.currentBet ≤ p.chips + p.bet)
    (hfold : a = "fold" → g.currentBet = 0 ∨ ∃ j q, j ≠ g.currentPlayerIndex ∧
        g.players.get? j = some q ∧ q.isFolded = false ∧ q.bet = g.currentBet) :
    betMaxInv (handle_action g a amt) := by
  have hlen : g.currentPlayerIndex < g.players.length := index_lt_of_get?_eq_some hp
  have hcb0 : 0 ≤ g.currentBet := by
    rcases hinv.2 with h0 | ⟨q, hq, _, hqb⟩
    · exact le_of_eq h0.symm
    · exact hqb ▸ hbets q hq
  unfold handle_action
  rw [hp]
  dsimp only
  by_cases haf : a = "fold"
  · rw [if_pos haf]
    exact betMaxInvOn_set_fold _ _ _ _ rfl hinv.1 (hfold haf)
  · by_cases hac : a = "check"
    · rw [if_neg haf, if_pos hac]
      exact betMaxInvOn_set_same _ _ p _ _ hp rfl rfl hinv
    · by_cases hacall : a = "call"
      · rw [if_neg haf, if_neg hac, if_pos hacall]
        by_cases hchips : p.chips ≤ g.currentBet - p.bet
        · rw [if_pos hchips]
          refine betMaxInvOn_set_to_cb _ _ _ _ hlen ?_ hpf hinv.1
          show p.bet + p.chips = g.currentBet
          omega
        · rw [if_neg hchips]
          refine betMaxInvOn_set_to_cb _ _ _ _ hlen ?_ hpf hinv.1
          show p.bet + (g.currentBet - p.bet) = g.currentBet
          ring
      · by_cases har : a = "raise"
        · rw [if_neg haf, if_neg hac, if_neg hacall, if_pos har]
          have hmrcb : g.currentBet ≤
              (if g.currentBet > 0 then g.currentBet * 2 else g.bigBlindAmount) := by
            by_cases hpos : g.currentBet > 0
            · rw [if_pos hpos]
              omega
            · rw [if_neg hpos]
              omega
          have ha2 : g.currentBet ≤
              min (max (if g.currentBet > 0 then g.currentBet * 2 else g.bigBlindAmount) amt)
                (p.chips + p.bet) :=
            le_min (hmrcb.trans (le_max_left _ _)) hcover
          unfold betMaxInv betMaxInvOn
          dsimp only
          constructor
          · intro q hq hqf
            obtain ⟨j, x, hgx, rfl⟩ := mem_mapWithIdx _ _ _ _ hq
            have hxb : (if 0 + j ≠ g.currentPlayerIndex ∧ x.isFolded = false ∧
                x.isAllIn = false then { x with hasActed := false } else x).bet = x.bet := by
              split <;> rfl
            have hxf : (if 0 + j ≠ g.currentPlayerIndex ∧ x.isFolded = false ∧
                x.isAllIn = false then { x with hasActed := false } else x).isFolded
                = x.isFolded := by
              split <;> rfl
            rw [hxb]
            rw [hxf] at hqf
            by_cases hji : j = g.currentPlayerIndex
            · subst hji
              rw [List.get?_eq_getElem?, List.getElem?_set_eq_of_lt _ hlen] at hgx
              injection hgx with hgx
              subst hgx
              dsimp only
              exact le_refl _
            · rw [get?_set_ne' (fun he => hji he.symm)] at hgx
              exact (hinv.1 x (List.get?_mem hgx) hqf).trans ha2
          · right
            have hfix : ∀ q : Player,
                (if g.currentPlayerIndex ≠ g.currentPlayerIndex ∧ q.isFolded = false ∧
                    q.isAllIn = false then { q with hasActed := false } else q) = q :=
              fun q => if_neg (fun hc => hc.1 rfl)
            exact exists_attained_mapWithIdx_set _ _ _ _ hlen (hfix _) hpf
        · rw [if_neg haf, if_neg hac, if_neg hacall, if_neg har]
          exact betMaxInvOn_set_same _ _ p _ _ hp rfl rfl hinv

/-- Claim C6, amended.  `currentBet` equals the maximum bet among
non-folded seats (i) after blind posting, provided every seat starts the
hand unfolded with a zero bet and can afford the big blind (and
`0 ≤ smallBlind ≤ bigBlind`); (ii) after each `handle_action` step,
provided the equality held before, all bets are non-negative, the acting
seat is non-folded and can cover the current bet
(`chips + bet ≥ currentBet`), and a folding actor is not the sole
non-folded holder of a positive `currentBet`; and (iii) unconditionally
after the between-stage reset, which zeroes `currentBet` and every bet.
Without the provisos the equality fails (see the short-big-blind
counterexample). -/
theorem C6_amended_currentBet_is_max_bet :
    (∀ g : GameState,
      2 ≤ g.players.length →
      (∀ p ∈ g.players, p.bet = 0 ∧ p.isFolded = false ∧ g.bigBlindAmount ≤ p.chips) →
      0 ≤ g.smallBlindAmount → g.smallBlindAmount ≤ g.bigBlindAmount →
      betMaxInv (postBlinds g)) ∧
    (∀ (g : GameState) (a : String) (amt : Int) (p : Player),
      betMaxInv g →
      g.players.get? g.currentPlayerIndex = some p →
      p.isFolded = false →
      (∀ q ∈ g.players, 0 ≤ q.bet) →
      0 ≤ g.bigBlindAmount →
      g.currentBet ≤ p.chips + p.bet →
      (a = "fold" → g.currentBet = 0 ∨ ∃ j q, j ≠ g.currentPlayerIndex ∧
          g.players.get? j = some q ∧ q.isFolded = false ∧ q.bet = g.currentBet) →
      betMaxInv (handle_action g a amt)) ∧
    (∀ g : GameState, betMaxInv (stageReset g)) :=
  ⟨postBlinds_betMaxInv,
   fun g a amt p h1 h2 h3 h4 h5 h6 h7 =>
     handle_action_betMaxInv g a amt p h1 h2 h3 h4 h5 h6 h7,
   stageReset_betMaxInv⟩

/-- Claim C6, witness: on the fresh 1000+1000 table the amended invariant
holds right after the blinds are posted, and a subsequent call by the
seat after the big blind preserves it. -/
theorem C6_witness :
    betMaxInv (postBlinds demoFresh) ∧
    betMaxInv (handle_action (postBlinds demoFresh) "call" 0) := by
  have h1 := C6_amended_currentBet_is_max_bet.1 demoFresh (by decide) (by decide)
    (by decide) (by decide)
  have h2 := C6_amended_currentBet_is_max_bet.2.1 (postBlinds demoFresh) "call" 0
    { chips := 990, bet := 10 } h1 (by decide) (by decide) (by decide) (by decide)
    (by decide) (fun hcontra => by exact absurd hcontra (by decide))
  exact ⟨h1, h2⟩





theorem insertDesc_perm {α : Type} (lt : α → α → Bool) (x : α) (l : List α) :
    (insertDesc lt x l).Perm (x :: l) := by
  induction l with
  | nil => exact List.Perm.refl _
  | cons y ys ih =>
    unfold insertDesc
    by_cases h : lt x y
    · rw [if_pos h]
      exact (List.Perm.cons y ih).trans (List.Perm.swap x y ys)
    · rw [if_neg h]

theorem sortDesc_perm {α : Type} (lt : α → α → Bool) (l : List α) :
    (sortDesc lt l).Perm l := by
  induction l with
  | nil => exact List.Perm.refl _
  | cons x xs ih => exact (insertDesc_perm lt x _).trans (List.Perm.cons x ih)

/-- Claim C10.  At showdown with at least two non-folded seats, where
`n ≥ 2` seats tie for the best key: `n` as the code computes it (filtering
the sorted key list) is exactly the number of non-folded seats whose key
equals the best key; the pot accumulates the swept bets and is *not*
zeroed; `n·⌊pot/n⌋ + pot mod n = pot`; and every seat ends with its bet
zeroed, its hand revealed, and its stack increased by exactly `⌊pot/n⌋`
when it ties the best key and by nothing otherwise — so the remainder
`pot mod n` is credited to no seat (it stays in `pot`, which the next
`start_round` resets). -/
theorem C10_split_pot_floor_division (g : GameState)
    (hactive : 2 ≤ (showdownActive g).length)
    (_hn : 2 ≤ tiedWinnersCount g) :
    tiedWinnersCount g =
      ((showdownActive g).filter
        (fun p => playerKey (sweepBets g) p = showdownBestKey g)).length ∧
    (end_round g).pot = g.pot + (g.players.map (fun p => p.bet)).sum ∧
    (tiedWinnersCount g : Int) *
        ((g.pot + (g.players.map (fun p => p.bet)).sum).fdiv (tiedWinnersCount g))
      + (g.pot + (g.players.map (fun p => p.bet)).sum).fmod (tiedWinnersCount g)
      = g.pot + (g.players.map (fun p => p.bet)).sum ∧
    (∀ (j : Nat) (p : Player), g.players.get? j = some p →
      ∃ q, (end_round g).players.get? j = some q ∧
        ((p.isFolded = false ∧ playerKey (sweepBets g) p = showdownBestKey g) →
          q.chips = p.chips +
            (g.pot + (g.players.map (fun r => r.bet)).sum).fdiv (tiedWinnersCount g)) ∧
        (¬(p.isFolded = false ∧ playerKey (sweepBets g) p = showdownBestKey g) →
          q.chips = p.chips) ∧
        q.bet = 0 ∧ q.showHand = true) := by
  have hne1 : ¬ ((sweepBets g).players.filter (fun p => p.isFolded = false)).length = 1 := by
    have h := hactive
    unfold showdownActive at h
    omega
  refine ⟨?_, ?_, ?_, ?_⟩
  · unfold tiedWinnersCount showdownKeys
    rw [((sortDesc_perm showdownKeyLt _).filter _).length_eq, List.filter_map,
      List.length_map]
    rfl
  · unfold end_round
    dsimp only
    rw [if_neg hne1]
    rfl
  · exact Int.fdiv_add_fmod _ _
  · intro j p hj
    unfold end_round
    dsimp only
    rw [if_neg hne1]
    dsimp only
    rw [List.get?_eq_getElem?, List.getElem?_map, List.getElem?_map,
      show (sweepBets g).players = g.players.map (fun p => { p with bet := 0 }) from rfl,
      List.getElem?_map, ← List.get?_eq_getElem?, hj]
    refine ⟨_, rfl, ?_, ?_, ?_, ?_⟩
    · intro hc
      dsimp only
      split
      · rfl
      · next hnc =>
        exact absurd hc hnc
    · intro hnc
      dsimp only
      split
      · next hcc =>
        exact absurd hcc hnc
      · rfl
    · dsimp only
      split <;> rfl
    · dsimp only
      split <;> rfl


set_option maxRecDepth 40000 in
/-- Claim C10, witness: pot 101 split between 2 tied winners pays 50 to
each (stacks 1000 → 1050) and the leftover chip goes to nobody. -/
theorem C10_witness :
    tiedWinnersCount demoSplitPot = 2 ∧
    (∃ q, (end_round demoSplitPot).players.get? 0 = some q ∧ q.chips = 1050) ∧
    (∃ q, (end_round demoSplitPot).players.get? 1 = some q ∧ q.chips = 1050) := by
  obtain ⟨-, -, -, h4⟩ := C10_split_pot_floor_division demoSplitPot (by decide) (by decide)
  refine ⟨by decide, ?_, ?_⟩
  · obtain ⟨q, hq, hwin, -, -, -⟩ := h4 0 { hand := [⟨1, 2⟩, ⟨2, 3⟩], chips := 1000 } rfl
    refine ⟨q, hq, ?_⟩
    rw [hwin (by decide)]
    decide
  · obtain ⟨q, hq, hwin, -, -, -⟩ := h4 1 { hand := [⟨1, 4⟩, ⟨2, 5⟩], chips := 1000 } rfl
    refine ⟨q, hq, ?_⟩
    rw [hwin (by decide)]
    decide

end Pokerweb
